import Mathlib

/-!
Verification of the redisbetween proxy core (`src/proxy/proxy.go` and the
cache file `src/unnamed/part_000`, package `proxy`).

Byte strings are modelled as Lean `String` (keys, error payloads, bulk
values) and encoded wire bytes as `List Char`.  Go panics (index out of
range, slice bounds) are modelled by `Option`-valued functions returning
`none`.  The repository's `redis` codec package (`redis.Message`,
`Keys`, `EncodeToBytes`, `DecodeFromBytes`, `NewArray`, `NewCommand`) is
not under `src/`; those parts are modelled from the spec and marked as
such in their doc comments.
-/

set_option autoImplicit false

namespace Redisbetween

/-- Modelled from the spec: the RESP message type of the repository's
`redis` codec package (not under `src/`).  A message is a status line, an
error, an integer, a bulk string (possibly nil), or an array of messages.
`invalid` stands for a message of a type the encoder does not recognize,
since the spec records that encoding can fail ("Encoding failures are
logged and swallowed"). -/
inductive Message where
  | status (s : String)
  | err (s : String)
  | int (n : Int)
  | bulk (v : Option String)
  | array (elems : List Message)
  | invalid
deriving Repr

/-- `Message.IsError` from the codec: type-tag check for error messages. -/
def Message.IsError : Message → Bool
  | .err _ => true
  | _ => false

/-- `Message.IsArray` from the codec: type-tag check for array messages. -/
def Message.IsArray : Message → Bool
  | .array _ => true
  | _ => false

/-- `Message.IsBulkBytes` from the codec: type-tag check for bulk-string
messages (nil bulk included). -/
def Message.IsBulkBytes : Message → Bool
  | .bulk _ => true
  | _ => false

/-- Modelled from the spec: `Message.Keys` of the codec extracts the key
arguments of a command message — the bulk-string elements after the
leading command name ("keys are extracted" for `GET`/`MGET`). -/
def msgKeys : Message → List String
  | .array elems => (elems.drop 1).filterMap fun m =>
      match m with
      | .bulk (some s) => some s
      | _ => none
  | _ => []

def crlf : List Char := ['\r', '\n']

mutual

/-- Modelled from the spec: `redis.EncodeToBytes`, the RESP encoder of the
codec package.  Standard RESP: `+` status, `-` error, `:` integer, `$`
bulk, `*` array; unrecognized message types make encoding fail. -/
def encodeMsg : Message → Except String (List Char)
  | .status s => .ok ('+' :: s.data ++ crlf)
  | .err s => .ok ('-' :: s.data ++ crlf)
  | .int n => .ok (':' :: (toString n).data ++ crlf)
  | .bulk none => .ok ('$' :: '-' :: '1' :: crlf)
  | .bulk (some s) =>
      .ok ('$' :: (toString s.length).data ++ crlf ++ s.data ++ crlf)
  | .array ms =>
      (encodeMsgList ms).map fun body =>
        '*' :: (toString ms.length).data ++ crlf ++ body
  | .invalid => .error "bad resp type"

def encodeMsgList : List Message → Except String (List Char)
  | [] => .ok []
  | m :: ms =>
      (encodeMsg m).bind fun b => (encodeMsgList ms).map fun bs => b ++ bs

end

/-- Read one CRLF-terminated line of the wire form. -/
def readLine : List Char → Option (List Char × List Char)
  | [] => none
  | '\r' :: '\n' :: rest => some ([], rest)
  | c :: rest => (readLine rest).map fun p => (c :: p.1, p.2)

def parseNatChars (l : List Char) : Option Nat :=
  if l.isEmpty then none
  else l.foldlM (fun acc c => if c.isDigit then some (acc * 10 + (c.toNat - '0'.toNat)) else none) 0

def parseIntChars : List Char → Option Int
  | '-' :: ds => (parseNatChars ds).map fun n => -(n : Int)
  | ds => (parseNatChars ds).map fun n => (n : Int)

/-- Parse a fixed number of consecutive messages; `pm` parses one. -/
def parseElems (pm : List Char → Option (Message × List Char)) :
    Nat → List Char → Option (List Message × List Char)
  | 0, s => some ([], s)
  | n + 1, s =>
      (pm s).bind fun p =>
        (parseElems pm n p.2).map fun q => (p.1 :: q.1, q.2)

/-- Modelled from the spec: the RESP decoder of the codec package
(`redis.DecodeFromBytes`), fuel-indexed.  Inverse of `encodeMsg` on the
encodable messages; anything else fails to decode ("decoding failures
surface as miss"). -/
def parseMsg : Nat → List Char → Option (Message × List Char)
  | 0, _ => none
  | fuel + 1, s =>
    match s with
    | '+' :: r => (readLine r).map fun p => (Message.status (String.mk p.1), p.2)
    | '-' :: r => (readLine r).map fun p => (Message.err (String.mk p.1), p.2)
    | ':' :: r =>
        (readLine r).bind fun p =>
          (parseIntChars p.1).map fun n => (Message.int n, p.2)
    | '$' :: r =>
        (readLine r).bind fun p =>
          if p.1 = ['-', '1'] then some (Message.bulk none, p.2)
          else
            (parseNatChars p.1).bind fun n =>
              if n ≤ p.2.length then
                let body := p.2.take n
                match p.2.drop n with
                | '\r' :: '\n' :: rest => some (Message.bulk (some (String.mk body)), rest)
                | _ => none
              else none
    | '*' :: r =>
        (readLine r).bind fun p =>
          (parseNatChars p.1).bind fun n =>
            (parseElems (parseMsg fuel) n p.2).map fun q => (Message.array q.1, q.2)
    | _ => none

/-- `redis.DecodeFromBytes`: decode exactly one message from the buffer. -/
def decodeFromBytes (b : List Char) : Option Message :=
  match parseMsg (b.length + 1) b with
  | some (m, []) => some m
  | _ => none

/-! ## The cache (`src/unnamed/part_000`)

`freecache` is an external black box; its byte store is modelled as an
association list from key to encoded value bytes, with `freecache.Get`
missing exactly when the key is absent and `freecache.Set` always
succeeding (its own size-limit failure mode is not involved in any claim;
the Go code only logs it).  TTL/expiry and eviction are time-dependent and
not modelled. -/

abbrev CacheState := List (String × List Char)

def lookupEntry (k : String) : CacheState → Option (List Char)
  | [] => none
  | (k', v) :: rest => if k' = k then some v else lookupEntry k rest

def insertEntry (k : String) (v : List Char) : CacheState → CacheState
  | [] => [(k, v)]
  | (k', v') :: rest =>
      if k' = k then (k, v) :: rest else (k', v') :: insertEntry k v rest

namespace Cache

/-- `Cache.set` (private, `part_000` lines 65-74): encode the message; on
encoding error only log — and then still store `b` (which Go leaves as
`nil` after a failed encode) under the key with the configured TTL. -/
def set (key : String) (mm : Message) (st : CacheState) : CacheState :=
  match encodeMsg mm with
  | .ok b => insertEntry key b st
  | .error _ => insertEntry key [] st

mutual

/-- `Cache.Set` (`part_000` lines 24-35): errors are not stored; arrays
recurse pairing `keys[i]` with element `i`; otherwise store under
`keys[0]`.  `none` models the Go index-out-of-range panic. -/
def Set (keys : List String) (m : Message) (st : CacheState) : Option CacheState :=
  if m.IsError then some st
  else
    match m with
    | .array ms => setElems keys 0 ms st
    | _ =>
      match keys with
      | [] => none
      | k :: _ => some (set k m st)

/-- The `for i, mm := range m.Array` loop of `Cache.Set`: element `i` is
stored via `Set([][]byte{keys[i]}, mm)`; `keys[i]` panics when `i` is out
of range. -/
def setElems (keys : List String) : Nat → List Message → CacheState → Option CacheState
  | _, [], st => some st
  | i, mm :: rest, st =>
      match keys.get? i with
      | none => none
      | some k => (Set [k] mm st).bind (setElems keys (i + 1) rest)

end

/-- `Cache.Get` (`part_000` lines 37-43): fetch the stored bytes (miss if
absent) and decode them (miss if undecodable). -/
def Get (key : String) (st : CacheState) : Option Message :=
  (lookupEntry key st).bind decodeFromBytes

/-- `Cache.GetAll` (`part_000` lines 45-55): every key must `Get`
successfully, else the whole read is a miss. -/
def GetAll (keys : List String) (st : CacheState) : Option (List Message) :=
  match keys with
  | [] => some []
  | k :: rest => (Get k st).bind fun m => (GetAll rest st).map fun ms => m :: ms

/-- `Cache.Del`. -/
def Del (key : String) (st : CacheState) : CacheState :=
  st.filter fun p => !(p.1 = key)

end Cache

/-! ## Proxy state (`src/proxy/proxy.go`)

`listeners` and `invalidators` model the two string-keyed maps of the
`Proxy` struct, `pools` records every `pool.ConnectServer` call made by
`createListener` (address, fresh id), and `nextId` supplies fresh ids for
created listeners, pools and invalidators.  Listeners, pools and
invalidators themselves are opaque runtime objects; they are modelled by
their ids. -/

def lookupAssoc {α : Type} (k : String) : List (String × α) → Option α
  | [] => none
  | (k', v) :: rest => if k' = k then some v else lookupAssoc k rest

def insertAssoc {α : Type} (k : String) (v : α) : List (String × α) → List (String × α)
  | [] => [(k, v)]
  | (k', v') :: rest =>
      if k' = k then (k, v) :: rest else (k', v') :: insertAssoc k v rest

structure ProxyState where
  cache : CacheState
  listeners : List (String × Nat)
  invalidators : List (String × Nat)
  pools : List (String × Nat)
  nextId : Nat
  /-- `p.cachePrefixes != nil` -/
  cachePrefixes : Bool
deriving Repr, DecidableEq

/-- `CacheableCommands` (`proxy.go` lines 31-34). -/
def CacheableCommands (cmd : String) : Bool :=
  cmd = "GET" || cmd = "MGET"

/-- `localSocketPathFromUpstream` (`proxy.go` lines 284-290) over byte
lists.  `strings.Replace(upstream, ":", "-", -1)` replaces every
occurrence of the one-byte pattern `":"`, which is exactly a
character-wise replacement. -/
def replaceColons : List Char → List Char
  | [] => []
  | c :: rest => (if c = ':' then '-' else c) :: replaceColons rest

def localSocketPathFromUpstream (upstream : List Char) (database : Int)
    (pre suf : List Char) : List Char :=
  let path := pre ++ replaceColons upstream
  let path := if database > -1 then path ++ '-' :: (toString database).data else path
  path ++ suf

/-- `ensureListenerForUpstream` (`proxy.go` lines 292-307): under the
listener lock, a missing address gets a freshly created listener (whose
`createListener` also connects a fresh pool via `pool.ConnectServer`) and
is stored in the map; a present address is left alone. -/
def ensureListenerForUpstream (st : ProxyState) (upstream : String) : ProxyState :=
  match lookupAssoc upstream st.listeners with
  | some _ => st
  | none =>
      { st with
        listeners := insertAssoc upstream st.nextId st.listeners
        pools := (upstream, st.nextId) :: st.pools
        nextId := st.nextId + 1 }

def registerAll (st : ProxyState) (addrs : List String) : ProxyState :=
  addrs.foldl ensureListenerForUpstream st

/-- The dialer installed by `createListener` (`proxy.go` lines 321-372),
restricted to its effect on proxy state: every newly dialed pooled
connection, when `cachePrefixes != nil`, creates a fresh `Invalidator`
for the upstream and stores it in `p.invalidators[upstream]`, replacing
whatever was there (lines 348-355).  The `SELECT` and `CLIENT TRACKING`
wire traffic has no effect on this state. -/
def dialConn (st : ProxyState) (upstream : String) : ProxyState :=
  if st.cachePrefixes then
    { st with
      invalidators := insertAssoc upstream st.nextId st.invalidators
      nextId := st.nextId + 1 }
  else st

/-! ## fetchFromCache (`proxy.go` lines 256-282) -/

/-- Result of `fetchFromCache`: Go's `(keys, messages, error)` triple.
`panic` models an index-out-of-range panic, `notCacheable` the
`(nil, nil, "not cacheable")` return, `miss` the `(keys, nil, "not
found")` return, and `hit` the `(keys, messages, nil)` return. -/
inductive FetchResult where
  | panic
  | notCacheable
  | miss (keys : List (List String))
  | hit (keys : List (List String)) (msgs : List Message)

/-- First loop of `fetchFromCache`: `keys[i] = mm[i].Keys()` after
checking `CacheableCommands[originalCmds[i]]`; `originalCmds[i]` panics
when the messages outnumber the commands.  `some none` is the
not-cacheable early return. -/
def extractKeys : List String → List Message → Option (Option (List (List String)))
  | _, [] => some (some [])
  | [], _ :: _ => none
  | c :: cs, m :: ms =>
      if CacheableCommands c then
        (extractKeys cs ms).map fun r => r.map fun ks => msgKeys m :: ks
      else some none

/-- Second loop of `fetchFromCache`: per position, `GetAll` the keys (any
miss aborts the whole fetch), then a `GET` takes `cached[0]` (panicking
on an empty key list) and anything else — "assumes MGET" — becomes
`redis.NewArray(cached)`. -/
def fetchLoop (st : CacheState) : List String → List (List String) → Option (Option (List Message))
  | _, [] => some (some [])
  | [], _ :: _ => none
  | c :: cs, k :: ks =>
      match Cache.GetAll k st with
      | none => some none
      | some cached =>
          match (if c = "GET" then cached.head? else some (Message.array cached)) with
          | none => none
          | some mi =>
              (fetchLoop st cs ks).map fun r => r.map fun ms => mi :: ms

def fetchFromCache (st : CacheState) (cmds : List String) (mm : List Message) : FetchResult :=
  match extractKeys cmds mm with
  | none => .panic
  | some none => .notCacheable
  | some (some keys) =>
      match fetchLoop st cmds keys with
      | none => .panic
      | some none => .miss keys
      | some (some msgs) => .hit keys msgs

/-! ## interceptMessages (`proxy.go` lines 187-254) -/

/-- Modelled from the spec: address of one node entry inside a
cluster-topology (`CLUSTER SLOTS`) response as radix's
`ClusterTopo.UnmarshalRESP` reads it — a node is an array starting with
the host (bulk) and port (integer). -/
def nodeAddr : Message → Option String
  | .array (.bulk (some h) :: .int p :: _) => some (h ++ ":" ++ toString p)
  | _ => none

/-- Modelled from the spec: one slot entry — start slot, end slot, then
one array per node. -/
def slotAddrs : Message → Option (List String)
  | .array (_ :: _ :: nodes) => nodes.mapM nodeAddr
  | _ => none

/-- Modelled from the spec: "the response is parsed and every node
address is registered"; `none` models an unmarshal failure. -/
def clusterSlotsAddrs : Message → Option (List String)
  | .array entries => (entries.mapM slotAddrs).map List.flatten
  | _ => none

/-- `strings.HasPrefix(s, pre)` over byte lists. -/
def hasPrefixC : List Char → List Char → Bool
  | _, [] => true
  | [], _ :: _ => false
  | c :: cs, p :: ps => c = p && hasPrefixC cs ps

/-- `strings.Split(s, sep)` for a one-byte separator over byte lists:
splits at every occurrence, keeping empty fields. -/
def splitOnCharC (sep : Char) : List Char → List (List Char)
  | [] => [[]]
  | c :: rest =>
      if c = sep then [] :: splitOnCharC sep rest
      else
        match splitOnCharC sep rest with
        | [] => [[c]]
        | w :: ws => (c :: w) :: ws

/-- One line of a `CLUSTER NODES` response (`proxy.go` lines 229-237):
`lt` is the first space, `rt` the first `@`; when both sit at positive
indices the slice `line[lt+1 : rt]` is the host-port (and Go panics with
a slice-bounds error when `rt < lt+1`). -/
def lineHostPort (line : List Char) : Option (Option String) :=
  match line.findIdx? (· = ' '), line.findIdx? (· = '@') with
  | some lt, some rt =>
      if lt > 0 ∧ rt > 0 then
        if rt < lt + 1 then none
        else some (some (String.mk ((line.drop (lt + 1)).take (rt - (lt + 1)))))
      else some none
  | _, _ => some none

def processNodesLines : List (List Char) → ProxyState → Option ProxyState
  | [], st => some st
  | l :: rest, st =>
      match lineHostPort l with
      | none => none
      | some none => processNodesLines rest st
      | some (some hp) => processNodesLines rest (ensureListenerForUpstream st hp)

/-- The `CLUSTER NODES` branch (`proxy.go` lines 227-239): only bulk
responses are scanned, line by line. -/
def clusterNodesEffect (m : Message) (st : ProxyState) : Option ProxyState :=
  match m with
  | .bulk v => processNodesLines (splitOnCharC '\n' (v.getD "").data) st
  | _ => some st

/-- The `for i, m := range mm` response loop of `interceptMessages`
(`proxy.go` lines 204-252).  Per response: a cache fill when `cacheKeys`
is non-nil (`cacheKeys[i]` and `Cache.Set` may panic); the
`CLUSTER SLOTS` branch, which returns from the whole loop whether the
re-encode/unmarshal succeeds (after registering every node address) or
fails; the `CLUSTER NODES` scan; and the `MOVED`/`ASK` branch, which
returns from the loop on a malformed (under-3-token) payload and
otherwise registers the third token.  `none` models a panic. -/
def processLoop (cmds : List String) (cacheKeys : Option (List (List String))) :
    List Message → Nat → ProxyState → Option ProxyState
  | [], _, st => some st
  | m :: rest, i, st =>
      let st1? : Option ProxyState :=
        match cacheKeys with
        | none => some st
        | some ks =>
            match ks.get? i with
            | none => none
            | some k => (Cache.Set k m st.cache).map fun c => { st with cache := c }
      match st1? with
      | none => none
      | some st1 =>
          match cmds.get? i with
          | none => none
          | some cmd =>
              if cmd = "CLUSTER SLOTS" then
                match encodeMsg m with
                | .error _ => some st1
                | .ok _ =>
                    match clusterSlotsAddrs m with
                    | none => some st1
                    | some addrs => some (registerAll st1 addrs)
              else
                match (if cmd = "CLUSTER NODES" then clusterNodesEffect m st1 else some st1) with
                | none => none
                | some st2 =>
                    match m with
                    | .err s =>
                        if hasPrefixC s.data "MOVED".data || hasPrefixC s.data "ASK".data then
                          let parts := splitOnCharC ' ' s.data
                          if parts.length < 3 then some st2
                          else
                            processLoop cmds cacheKeys rest (i + 1)
                              (ensureListenerForUpstream st2 (String.mk (parts.getD 2 [])))
                        else processLoop cmds cacheKeys rest (i + 1) st2
                    | _ => processLoop cmds cacheKeys rest (i + 1) st2

/-- The post-fetch tail of `interceptMessages`: round-trip the batch
upstream (`rt`), then run the response loop; the returned message list is
always the round-tripper's reply. -/
def forward (st : ProxyState) (cmds : List String) (mm : List Message)
    (rt : List Message → List Message) (cacheKeys : Option (List (List String))) :
    Option (List Message × ProxyState) :=
  (processLoop cmds cacheKeys (rt mm) 0 st).map fun st' => (rt mm, st')

/-- `interceptMessages` (`proxy.go` lines 187-254).  With cache prefixes
configured the batch is first looked up in the cache: a full hit is
answered locally with no upstream round-trip; otherwise (not cacheable,
or a miss — which keeps the extracted `cacheKeys` for the fill) the batch
is forwarded. -/
def interceptMessages (st : ProxyState) (cmds : List String) (mm : List Message)
    (rt : List Message → List Message) : Option (List Message × ProxyState) :=
  if st.cachePrefixes then
    match fetchFromCache st.cache cmds mm with
    | .panic => none
    | .hit _ msgs => some (msgs, st)
    | .notCacheable => forward st cmds mm rt none
    | .miss ks => forward st cmds mm rt (some ks)
  else forward st cmds mm rt none

/-! ## Auxiliary definitions used only in the statements of theorems -/

mutual

/-- Safety of `Cache.Set` for one array element, which the recursion
always pairs with a singleton key list: an array element must itself have
at most one element, recursively. -/
def setSafe1 : Message → Bool
  | .array ms => decide (ms.length ≤ 1) && setSafe1List ms
  | _ => true

def setSafe1List : List Message → Bool
  | [] => true
  | m :: ms => setSafe1 m && setSafe1List ms

end

/-- The exact domain of `Cache.Set`: errors are always safe; an array
needs no more elements than keys and recursively safe elements (each
paired with a singleton key list); a non-error scalar needs a non-empty
key list. -/
def setSafe (keys : List String) (m : Message) : Bool :=
  if m.IsError then true
  else
    match m with
    | .array ms => decide (ms.length ≤ keys.length) && setSafe1List ms
    | _ => !keys.isEmpty

/-- The response vector `fetchFromCache` assembles on a full hit: per
command, the single cached element for a `GET` and the array of cached
elements for an `MGET`. -/
def assembleResp (cmds : List String) (cached : List (List Message)) : List Message :=
  (cmds.zip cached).map fun p =>
    if p.1 = "GET" then p.2.headD (Message.bulk none) else Message.array p.2

/-- Replace the cache component of a proxy state. -/
def withCache (s : ProxyState) (c : CacheState) : ProxyState :=
  { s with cache := c }

/-- Everything in an interception result except the cache: the response
vector and the listener/invalidator/pool bookkeeping. -/
def stripCache (r : List Message × ProxyState) :
    List Message × List (String × Nat) × List (String × Nat) × List (String × Nat) × Nat :=
  (r.1, r.2.listeners, r.2.invalidators, r.2.pools, r.2.nextId)

/-! # Lemmas about the association-list maps -/

theorem lookupAssoc_insert {α : Type} (k k' : String) (v : α) (l : List (String × α)) :
    lookupAssoc k (insertAssoc k' v l) = if k' = k then some v else lookupAssoc k l := by
  induction l with
  | nil => simp [insertAssoc, lookupAssoc]
  | cons p rest ih =>
    obtain ⟨k₀, v₀⟩ := p
    by_cases h : k₀ = k'
    · subst h
      by_cases h2 : k₀ = k <;> simp [insertAssoc, lookupAssoc, h2]
    · by_cases h2 : k₀ = k
      · subst h2
        simp [insertAssoc, lookupAssoc, h, Ne.symm h]
      · simp [insertAssoc, lookupAssoc, h, h2, ih]

theorem lookupAssoc_insert_self {α : Type} (k : String) (v : α) (l : List (String × α)) :
    lookupAssoc k (insertAssoc k v l) = some v := by
  rw [lookupAssoc_insert, if_pos rfl]

theorem lookupEntry_insert (k k' : String) (v : List Char) (l : CacheState) :
    lookupEntry k (insertEntry k' v l) = if k' = k then some v else lookupEntry k l := by
  induction l with
  | nil => simp [insertEntry, lookupEntry]
  | cons p rest ih =>
    obtain ⟨k₀, v₀⟩ := p
    by_cases h : k₀ = k'
    · subst h
      by_cases h2 : k₀ = k <;> simp [insertEntry, lookupEntry, h2]
    · by_cases h2 : k₀ = k
      · subst h2
        simp [insertEntry, lookupEntry, h, Ne.symm h]
      · simp [insertEntry, lookupEntry, h, h2, ih]

theorem lookupAssoc_none_countP {α : Type} (k : String) (l : List (String × α))
    (h : lookupAssoc k l = none) : l.countP (fun p => p.1 == k) = 0 := by
  induction l with
  | nil => rfl
  | cons p rest ih =>
    obtain ⟨k₀, v₀⟩ := p
    rw [lookupAssoc] at h
    by_cases hk : k₀ = k
    · rw [if_pos hk] at h; exact absurd h (by simp)
    · rw [if_neg hk] at h
      simp [List.countP_cons, hk, ih h]

theorem countP_insertAssoc_none {α : Type} (k : String) (v : α) (l : List (String × α))
    (h : lookupAssoc k l = none) :
    (insertAssoc k v l).countP (fun p => p.1 == k) = 1 := by
  induction l with
  | nil => simp [insertAssoc, List.countP_cons]
  | cons p rest ih =>
    obtain ⟨k₀, v₀⟩ := p
    rw [lookupAssoc] at h
    by_cases hk : k₀ = k
    · rw [if_pos hk] at h; exact absurd h (by simp)
    · rw [if_neg hk] at h
      simp [insertAssoc, hk, List.countP_cons, ih h]

/-! # C8: the local endpoint path -/

theorem replaceColons_append (a b : List Char) :
    replaceColons (a ++ b) = replaceColons a ++ replaceColons b := by
  induction a with
  | nil => rfl
  | cons c cs ih => simp [replaceColons, ih]

theorem replaceColons_of_not_mem (a : List Char) (h : ':' ∉ a) : replaceColons a = a := by
  induction a with
  | nil => rfl
  | cons c cs ih =>
    rw [List.mem_cons, not_or] at h
    rw [replaceColons, if_neg (fun hc => h.1 hc.symm), ih h.2]

/-- Claim C8: for an upstream `host:port` with colon-free host (and port),
the local endpoint path is `pre ++ host ++ "-" ++ port ++ suf` when the
database index is `-1`, and gains `"-" ++ decimal(db)` before the suffix
when the index is greater than `-1`. -/
theorem localSocketPathFromUpstream_spec
    (host port pre suf : List Char) (d : Int)
    (hh : ':' ∉ host) (hp : ':' ∉ port) :
    (d = -1 →
      localSocketPathFromUpstream (host ++ ':' :: port) d pre suf
        = pre ++ host ++ '-' :: port ++ suf) ∧
    (d > -1 →
      localSocketPathFromUpstream (host ++ ':' :: port) d pre suf
        = pre ++ host ++ '-' :: port ++ '-' :: (toString d).data ++ suf) := by
  have hsplit : host ++ ':' :: port = host ++ [':'] ++ port := by simp
  have hrepl : replaceColons (host ++ ':' :: port) = host ++ '-' :: port := by
    rw [hsplit, replaceColons_append, replaceColons_append,
      replaceColons_of_not_mem host hh, replaceColons_of_not_mem port hp]
    simp [replaceColons]
  constructor
  · intro hd
    subst hd
    simp [localSocketPathFromUpstream, hrepl]
  · intro hd
    simp [localSocketPathFromUpstream, hrepl, hd]

theorem localSocketPathFromUpstream_spec_witness :
    (':' ∉ ['h']) ∧ (':' ∉ ['6']) ∧
    (((3 : Int) = -1 →
      localSocketPathFromUpstream (['h'] ++ ':' :: ['6']) 3 ['p'] ['s']
        = ['p'] ++ ['h'] ++ '-' :: ['6'] ++ ['s']) ∧
     ((3 : Int) > -1 →
      localSocketPathFromUpstream (['h'] ++ ':' :: ['6']) 3 ['p'] ['s']
        = ['p'] ++ ['h'] ++ '-' :: ['6'] ++ '-' :: (toString (3 : Int)).data ++ ['s'])) :=
  ⟨by decide, by decide,
    localSocketPathFromUpstream_spec ['h'] ['6'] ['p'] ['s'] 3 (by decide) (by decide)⟩

/-! # C7: idempotent registration -/

theorem ensureListener_lookup_isSome (st : ProxyState) (addr : String) :
    (lookupAssoc addr (ensureListenerForUpstream st addr).listeners).isSome := by
  unfold ensureListenerForUpstream
  match h : lookupAssoc addr st.listeners with
  | some v => simp [h]
  | none => simp [h, lookupAssoc_insert_self]

theorem ensureListener_of_present (st : ProxyState) (addr : String)
    (h : (lookupAssoc addr st.listeners).isSome) :
    ensureListenerForUpstream st addr = st := by
  unfold ensureListenerForUpstream
  match hl : lookupAssoc addr st.listeners with
  | some v => rfl
  | none => rw [hl] at h; exact absurd h (by simp)

/-- Claim C7: registering an upstream address is idempotent — after the
first call every further call leaves the state unchanged, and a fresh
address ends with exactly one listener map entry and exactly one created
pool. -/
theorem ensureListenerForUpstream_idempotent
    (st : ProxyState) (addr : String) (n : Nat)
    (habs : lookupAssoc addr st.listeners = none)
    (hpool : st.pools.countP (fun p => p.1 == addr) = 0) :
    (fun s => ensureListenerForUpstream s addr)^[n + 1] st = ensureListenerForUpstream st addr ∧
    (ensureListenerForUpstream st addr).listeners.countP (fun p => p.1 == addr) = 1 ∧
    (ensureListenerForUpstream st addr).pools.countP (fun p => p.1 == addr) = 1 := by
  refine ⟨?_, ?_, ?_⟩
  · rw [Function.iterate_succ_apply]
    exact Function.iterate_fixed
      (ensureListener_of_present _ addr (ensureListener_lookup_isSome st addr)) n
  · unfold ensureListenerForUpstream
    rw [habs]
    exact countP_insertAssoc_none addr _ _ habs
  · unfold ensureListenerForUpstream
    rw [habs]
    simp [List.countP_cons, hpool]

theorem ensureListenerForUpstream_idempotent_witness :
    (lookupAssoc "u:1" (⟨[], [], [], [], 0, false⟩ : ProxyState).listeners = none) ∧
    ((⟨[], [], [], [], 0, false⟩ : ProxyState).pools.countP (fun p => p.1 == "u:1") = 0) ∧
    ((fun s => ensureListenerForUpstream s "u:1")^[3] (⟨[], [], [], [], 0, false⟩ : ProxyState)
       = ensureListenerForUpstream ⟨[], [], [], [], 0, false⟩ "u:1" ∧
     (ensureListenerForUpstream ⟨[], [], [], [], 0, false⟩ "u:1").listeners.countP
       (fun p => p.1 == "u:1") = 1 ∧
     (ensureListenerForUpstream ⟨[], [], [], [], 0, false⟩ "u:1").pools.countP
       (fun p => p.1 == "u:1") = 1) :=
  ⟨rfl, rfl, ensureListenerForUpstream_idempotent ⟨[], [], [], [], 0, false⟩ "u:1" 2 rfl rfl⟩

/-! # C4: one invalidator per upstream (corrected) -/

/-- Claim C4 counterexample: dialing a second pooled connection to the
same upstream (cache prefixes configured) replaces the upstream's
Invalidator — the invalidator registry after the second dial differs from
the registry after the first. -/
theorem dialConn_second_dial_cex :
    (dialConn (dialConn ⟨[], [], [], [], 0, true⟩ "u") "u").invalidators
      ≠ (dialConn ⟨[], [], [], [], 0, true⟩ "u").invalidators := by
  decide

/-- Claim C4 amended: every newly dialed pooled connection to an upstream
with cache prefixes configured creates a fresh Invalidator (an id never
used before) and replaces the upstream's registry entry with it; the
registry maps the upstream to the newest Invalidator. -/
theorem dialConn_fresh_invalidator (st : ProxyState) (u : String)
    (hpref : st.cachePrefixes = true)
    (hids : ∀ p ∈ st.invalidators, p.2 < st.nextId) :
    lookupAssoc u (dialConn st u).invalidators = some st.nextId ∧
    (∀ p ∈ st.invalidators, p.2 ≠ st.nextId) ∧
    (dialConn st u).nextId = st.nextId + 1 := by
  refine ⟨?_, fun p hp => Nat.ne_of_lt (hids p hp), ?_⟩
  · simp [dialConn, hpref, lookupAssoc_insert_self]
  · simp [dialConn, hpref]

/-! # C6: encoding failures in Cache.set (corrected) -/

/-- Claim C6 counterexample: when encoding fails, `Cache.set` logs — but
the Go code then still calls `c.c.Set(key, b, c.ttl)` with the nil `b`,
so the key's state does change: an (empty) entry appears. -/
theorem cache_set_encode_failure_cex :
    encodeMsg Message.invalid = Except.error "bad resp type" ∧
    Cache.Set ["k"] Message.invalid [] = some [("k", [])] ∧
    lookupEntry "k" ([] : CacheState) = none ∧
    lookupEntry "k" [("k", ([] : List Char))] = some [] :=
  ⟨rfl, rfl, rfl, rfl⟩

/-- Claim C6 amended: when `Cache.Set` fails to encode a (non-error,
non-array) message, the failure is logged and swallowed — no error
propagates — but the nil byte slice is still written under the key, so
the key's entry becomes the empty byte string (which a later `Get` fails
to decode and reports as a miss). -/
theorem cache_set_encode_failure (k : String) (rest : List String) (m : Message)
    (st : CacheState) (e : String)
    (hm1 : m.IsError = false) (hm2 : m.IsArray = false)
    (henc : encodeMsg m = .error e) :
    Cache.Set (k :: rest) m st = some (insertEntry k [] st) ∧
    lookupEntry k (insertEntry k [] st) = some [] ∧
    Cache.Get k (insertEntry k [] st) = none := by
  have hone : Cache.set k m st = insertEntry k [] st := by
    unfold Cache.set
    rw [henc]
  refine ⟨?_, ?_, ?_⟩
  · cases m with
    | err s => simp [Message.IsError] at hm1
    | array ms => simp [Message.IsArray] at hm2
    | status s =>
        rw [show Cache.Set (k :: rest) (.status s) st = some (Cache.set k (.status s) st) from rfl, hone]
    | int n =>
        rw [show Cache.Set (k :: rest) (.int n) st = some (Cache.set k (.int n) st) from rfl, hone]
    | bulk v =>
        rw [show Cache.Set (k :: rest) (.bulk v) st = some (Cache.set k (.bulk v) st) from rfl, hone]
    | invalid =>
        rw [show Cache.Set (k :: rest) .invalid st = some (Cache.set k .invalid st) from rfl, hone]
  · rw [lookupEntry_insert, if_pos rfl]
  · unfold Cache.Get
    rw [lookupEntry_insert, if_pos rfl]
    rfl

theorem cache_set_encode_failure_witness :
    (Message.IsError .invalid = false) ∧ (Message.IsArray .invalid = false) ∧
    (encodeMsg .invalid = Except.error "bad resp type") ∧
    (Cache.Set ["k"] .invalid [("x", ['+'])] = some (insertEntry "k" [] [("x", ['+'])]) ∧
     lookupEntry "k" (insertEntry "k" [] [("x", ['+'])]) = some [] ∧
     Cache.Get "k" (insertEntry "k" [] [("x", ['+'])]) = none) :=
  ⟨rfl, rfl, rfl,
    cache_set_encode_failure "k" [] .invalid [("x", ['+'])] "bad resp type" rfl rfl rfl⟩

/-! # C9: the exact totality precondition of Cache.Set (corrected) -/

theorem setSafe_singleton (k : String) (m : Message) : setSafe [k] m = setSafe1 m := by
  cases m <;> rfl

theorem sizeOf_lt_array (ms : List Message) : sizeOf ms < sizeOf (Message.array ms) := by
  simp only [Message.array.sizeOf_spec]
  omega

theorem sizeOf_head_lt (mm : Message) (rest : List Message) :
    sizeOf mm < sizeOf (mm :: rest) := by
  simp only [List.cons.sizeOf_spec]
  omega

theorem sizeOf_tail_lt (mm : Message) (rest : List Message) :
    sizeOf rest < sizeOf (mm :: rest) := by
  simp only [List.cons.sizeOf_spec]
  omega

theorem set_isSome_aux :
    ∀ n : Nat,
      (∀ m : Message, sizeOf m ≤ n → ∀ keys st,
        (Cache.Set keys m st).isSome = setSafe keys m) ∧
      (∀ ms : List Message, sizeOf ms ≤ n → ∀ keys i st,
        (Cache.setElems keys i ms st).isSome
          = (ms.isEmpty || (decide (i + ms.length ≤ keys.length) && setSafe1List ms))) := by
  intro n
  induction n using Nat.strong_induction_on with
  | _ n ih =>
    constructor
    · intro m hm keys st
      match m with
      | .err s => rfl
      | .array ms =>
        have hms : sizeOf ms < n :=
          Nat.lt_of_lt_of_le (sizeOf_lt_array ms) hm
        have helems := (ih (sizeOf ms) hms).2 ms le_rfl keys 0 st
        rw [show Cache.Set keys (.array ms) st = Cache.setElems keys 0 ms st from rfl, helems,
          show setSafe keys (.array ms)
            = (decide (ms.length ≤ keys.length) && setSafe1List ms) from rfl]
        cases ms with
        | nil => simp [setSafe1List]
        | cons a as => simp
      | .status s => cases keys <;> rfl
      | .int nn => cases keys <;> rfl
      | .bulk v => cases keys <;> rfl
      | .invalid => cases keys <;> rfl
    · intro ms hms keys i st
      match ms with
      | [] => rfl
      | mm :: rest =>
        have hmm : sizeOf mm < n := Nat.lt_of_lt_of_le (sizeOf_head_lt mm rest) hms
        have hrest : sizeOf rest < n := Nat.lt_of_lt_of_le (sizeOf_tail_lt mm rest) hms
        cases hki : keys.get? i with
        | none =>
          have hstep : Cache.setElems keys i (mm :: rest) st = none := by
            rw [show Cache.setElems keys i (mm :: rest) st
                = (match keys.get? i with
                   | none => none
                   | some k => (Cache.Set [k] mm st).bind (Cache.setElems keys (i + 1) rest))
                from rfl, hki]
          have hlen : keys.length ≤ i := List.get?_eq_none.mp hki
          have hdec : (decide (i + (rest.length + 1) ≤ keys.length)) = false :=
            decide_eq_false (by omega)
          rw [hstep]
          simp only [Option.isSome_none, List.isEmpty_cons, Bool.false_or,
            List.length_cons, hdec, Bool.false_and]
        | some k =>
          have hstep : Cache.setElems keys i (mm :: rest) st
              = (Cache.Set [k] mm st).bind (Cache.setElems keys (i + 1) rest) := by
            rw [show Cache.setElems keys i (mm :: rest) st
                = (match keys.get? i with
                   | none => none
                   | some kk => (Cache.Set [kk] mm st).bind (Cache.setElems keys (i + 1) rest))
                from rfl, hki]
          have hilt : i < keys.length := by
            rcases Nat.lt_or_ge i keys.length with h | h
            · exact h
            · rw [List.get?_eq_none.mpr h] at hki
              cases hki
          have h1 := (ih (sizeOf mm) hmm).1 mm le_rfl [k] st
          rw [setSafe_singleton] at h1
          rw [hstep]
          cases hres : Cache.Set [k] mm st with
          | none =>
            rw [hres] at h1
            have hsafe : setSafe1 mm = false := by
              simpa using h1.symm
            simp [setSafe1List, hsafe]
          | some st2 =>
            rw [hres] at h1
            have hsafe : setSafe1 mm = true := by
              simpa using h1.symm
            have h2 := (ih (sizeOf rest) hrest).2 rest le_rfl keys (i + 1) st2
            rw [show (some st2).bind (Cache.setElems keys (i + 1) rest)
                = Cache.setElems keys (i + 1) rest st2 from rfl, h2]
            cases rest with
            | nil =>
              simp [setSafe1List, hsafe]
              omega
            | cons b bs =>
              simp only [List.isEmpty_cons, Bool.false_or, setSafe1List, hsafe,
                Bool.true_and, List.length_cons]
              rw [decide_eq_decide.mpr (show i + 1 + (bs.length + 1) ≤ keys.length
                  ↔ i + (bs.length + 1 + 1) ≤ keys.length from by omega)]

/-- Claim C9 counterexample: the claim's precondition (non-error message,
top-level element count within the key list length, non-empty keys) is
not sufficient — a nested array element makes `Cache.Set` index out of
bounds anyway. -/
theorem cache_set_oob_cex :
    ([Message.array [.bulk (some "a"), .bulk (some "b")]].length
        ≤ (["k"] : List String).length) ∧
    Message.IsError (.array [Message.array [.bulk (some "a"), .bulk (some "b")]]) = false ∧
    Cache.Set ["k"] (.array [Message.array [.bulk (some "a"), .bulk (some "b")]]) [] = none :=
  ⟨by decide, rfl, rfl⟩

/-- Claim C9 amended: `Cache.Set` reaches no out-of-bounds index exactly
under the recursive precondition `setSafe`: error messages are always
safe; an array needs no more elements than keys and every element safe
for a singleton key list (so nested array elements need at most one
element, recursively); a non-error scalar needs a non-empty key list.
The precondition is required: whenever it fails, the out-of-bounds panic
is reached. -/
theorem cache_set_total_iff_setSafe (keys : List String) (m : Message) (st : CacheState) :
    (Cache.Set keys m st).isSome = setSafe keys m :=
  (set_isSome_aux (sizeOf m)).1 m le_rfl keys st

/-! # C3: errors are never cached -/

theorem encodeMsg_head_ne_err (m : Message) (b : List Char)
    (hm : m.IsError = false) (h : encodeMsg m = .ok b) : b.head? ≠ some '-' := by
  cases m with
  | err s => simp [Message.IsError] at hm
  | status s =>
    simp only [encodeMsg, Except.ok.injEq] at h
    subst h; simp
  | int n =>
    simp only [encodeMsg, Except.ok.injEq] at h
    subst h; simp
  | bulk v =>
    cases v with
    | none =>
      simp only [encodeMsg, Except.ok.injEq] at h
      subst h; simp
    | some s =>
      simp only [encodeMsg, Except.ok.injEq] at h
      subst h; simp
  | array ms =>
    rw [show encodeMsg (.array ms)
        = (encodeMsgList ms).map (fun body => '*' :: (toString ms.length).data ++ crlf ++ body)
        from rfl] at h
    match hl : encodeMsgList ms with
    | .error e => rw [hl] at h; simp [Except.map] at h
    | .ok body =>
      rw [hl] at h
      simp only [Except.map, Except.ok.injEq] at h
      subst h; simp
  | invalid => simp [encodeMsg] at h

theorem set_entries_aux :
    ∀ n : Nat,
      (∀ m : Message, sizeOf m ≤ n → ∀ keys st st', Cache.Set keys m st = some st' →
        ∀ k v, lookupEntry k st' = some v →
          lookupEntry k st = some v ∨ v.head? ≠ some '-') ∧
      (∀ ms : List Message, sizeOf ms ≤ n → ∀ keys i st st',
        Cache.setElems keys i ms st = some st' →
        ∀ k v, lookupEntry k st' = some v →
          lookupEntry k st = some v ∨ v.head? ≠ some '-') := by
  intro n
  induction n using Nat.strong_induction_on with
  | _ n ih =>
    have hscalar : ∀ (k0 : String) (m : Message), m.IsError = false →
        ∀ st k v, lookupEntry k (Cache.set k0 m st) = some v →
          lookupEntry k st = some v ∨ v.head? ≠ some '-' := by
      intro k0 m hm st k v hv
      unfold Cache.set at hv
      cases henc : encodeMsg m with
      | ok b =>
        rw [henc, lookupEntry_insert] at hv
        by_cases hk : k0 = k
        · rw [if_pos hk] at hv
          have hbv : b = v := by injection hv
          subst hbv
          exact Or.inr (encodeMsg_head_ne_err m b hm henc)
        · rw [if_neg hk] at hv
          exact Or.inl hv
      | error e =>
        rw [henc, lookupEntry_insert] at hv
        by_cases hk : k0 = k
        · rw [if_pos hk] at hv
          have hbv : ([] : List Char) = v := by injection hv
          subst hbv
          exact Or.inr (by simp)
        · rw [if_neg hk] at hv
          exact Or.inl hv
    constructor
    · intro m hm keys st st' hset k v hv
      match m with
      | .err s =>
        rw [show Cache.Set keys (.err s) st = some st from rfl] at hset
        cases hset
        exact Or.inl hv
      | .array ms =>
        have hms : sizeOf ms < n := Nat.lt_of_lt_of_le (sizeOf_lt_array ms) hm
        rw [show Cache.Set keys (.array ms) st = Cache.setElems keys 0 ms st from rfl] at hset
        exact (ih (sizeOf ms) hms).2 ms le_rfl keys 0 st st' hset k v hv
      | .status s =>
        match keys with
        | [] => exact absurd (show (none : Option CacheState) = some st' from hset) (by simp)
        | k0 :: rest =>
          rw [show Cache.Set (k0 :: rest) (.status s) st = some (Cache.set k0 (.status s) st)
              from rfl] at hset
          cases hset
          exact hscalar k0 (.status s) rfl st k v hv
      | .int nn =>
        match keys with
        | [] => exact absurd (show (none : Option CacheState) = some st' from hset) (by simp)
        | k0 :: rest =>
          rw [show Cache.Set (k0 :: rest) (.int nn) st = some (Cache.set k0 (.int nn) st)
              from rfl] at hset
          cases hset
          exact hscalar k0 (.int nn) rfl st k v hv
      | .bulk vv =>
        match keys with
        | [] => exact absurd (show (none : Option CacheState) = some st' from hset) (by simp)
        | k0 :: rest =>
          rw [show Cache.Set (k0 :: rest) (.bulk vv) st = some (Cache.set k0 (.bulk vv) st)
              from rfl] at hset
          cases hset
          exact hscalar k0 (.bulk vv) rfl st k v hv
      | .invalid =>
        match keys with
        | [] => exact absurd (show (none : Option CacheState) = some st' from hset) (by simp)
        | k0 :: rest =>
          rw [show Cache.Set (k0 :: rest) .invalid st = some (Cache.set k0 .invalid st)
              from rfl] at hset
          cases hset
          exact hscalar k0 .invalid rfl st k v hv
    · intro ms hms keys i st st' hset k v hv
      match ms with
      | [] =>
        rw [show Cache.setElems keys i [] st = some st from rfl] at hset
        cases hset
        exact Or.inl hv
      | mm :: rest =>
        have hmm : sizeOf mm < n := Nat.lt_of_lt_of_le (sizeOf_head_lt mm rest) hms
        have hrest : sizeOf rest < n := Nat.lt_of_lt_of_le (sizeOf_tail_lt mm rest) hms
        cases hki : keys.get? i with
        | none =>
          have hstep : Cache.setElems keys i (mm :: rest) st = none := by
            rw [show Cache.setElems keys i (mm :: rest) st
                = (match keys.get? i with
                   | none => none
                   | some k => (Cache.Set [k] mm st).bind (Cache.setElems keys (i + 1) rest))
                from rfl, hki]
          rw [hstep] at hset
          cases hset
        | some k0 =>
          have hstep : Cache.setElems keys i (mm :: rest) st
              = (Cache.Set [k0] mm st).bind (Cache.setElems keys (i + 1) rest) := by
            rw [show Cache.setElems keys i (mm :: rest) st
                = (match keys.get? i with
                   | none => none
                   | some kk => (Cache.Set [kk] mm st).bind (Cache.setElems keys (i + 1) rest))
                from rfl, hki]
          rw [hstep] at hset
          cases hres : Cache.Set [k0] mm st with
          | none => rw [hres] at hset; cases hset
          | some st2 =>
            rw [hres, show (some st2).bind (Cache.setElems keys (i + 1) rest)
                = Cache.setElems keys (i + 1) rest st2 from rfl] at hset
            have step2 := (ih (sizeOf rest) hrest).2 rest le_rfl keys (i + 1) st2 st' hset k v hv
            cases step2 with
            | inl h2 =>
              exact (ih (sizeOf mm) hmm).1 mm le_rfl [k0] st st2 hres k v h2
            | inr h2 => exact Or.inr h2

/-- Claim C3: an error message leaves the cache unchanged, and no store
performed by `Cache.Set` (top-level or per array element) ever writes an
error: every entry of the resulting cache either was already present or
holds bytes that are not an error encoding (RESP errors are exactly the
values beginning with the byte `-`). -/
theorem cache_set_never_stores_errors :
    (∀ keys (m : Message) st, m.IsError = true → Cache.Set keys m st = some st) ∧
    (∀ keys (m : Message) st st', Cache.Set keys m st = some st' →
      ∀ k v, lookupEntry k st' = some v →
        lookupEntry k st = some v ∨ v.head? ≠ some '-') := by
  constructor
  · intro keys m st hm
    cases m with
    | err s => rfl
    | status s => simp [Message.IsError] at hm
    | int n => simp [Message.IsError] at hm
    | bulk v => simp [Message.IsError] at hm
    | array ms => simp [Message.IsError] at hm
    | invalid => simp [Message.IsError] at hm
  · exact fun keys m st st' h k v hv =>
      (set_entries_aux (sizeOf m)).1 m le_rfl keys st st' h k v hv

theorem cache_set_never_stores_errors_witness :
    (Message.IsError (.err "MOVED 1 h:1") = true) ∧
    (Cache.Set ["k"] (.err "MOVED 1 h:1") [("a", ['-'])] = some [("a", ['-'])]) ∧
    (lookupEntry "k" ([] : CacheState)
        = some ('$' :: '1' :: '\r' :: '\n' :: 'v' :: '\r' :: '\n' :: []) ∨
      ('$' :: '1' :: '\r' :: '\n' :: 'v' :: '\r' :: '\n' :: ([] : List Char)).head? ≠ some '-') :=
  ⟨rfl,
    cache_set_never_stores_errors.1 ["k"] (.err "MOVED 1 h:1") [("a", ['-'])] rfl,
    cache_set_never_stores_errors.2 ["k"] (.bulk (some "v")) []
      [("k", '$' :: '1' :: '\r' :: '\n' :: 'v' :: '\r' :: '\n' :: [])] rfl "k"
      ('$' :: '1' :: '\r' :: '\n' :: 'v' :: '\r' :: '\n' :: []) rfl⟩

theorem dialConn_fresh_invalidator_witness :
    ((⟨[], [], [("u", 0)], [], 1, true⟩ : ProxyState).cachePrefixes = true) ∧
    (∀ p ∈ (⟨[], [], [("u", 0)], [], 1, true⟩ : ProxyState).invalidators,
        p.2 < (⟨[], [], [("u", 0)], [], 1, true⟩ : ProxyState).nextId) ∧
    (lookupAssoc "u" (dialConn ⟨[], [], [("u", 0)], [], 1, true⟩ "u").invalidators = some 1 ∧
     (∀ p ∈ (⟨[], [], [("u", 0)], [], 1, true⟩ : ProxyState).invalidators, p.2 ≠ 1) ∧
     (dialConn ⟨[], [], [("u", 0)], [], 1, true⟩ "u").nextId = 1 + 1) :=
  ⟨rfl, by decide, dialConn_fresh_invalidator ⟨[], [], [("u", 0)], [], 1, true⟩ "u" rfl (by decide)⟩

/-! # Cache.Get / Cache.GetAll lemmas -/

theorem getAll_cons (k : String) (rest : List String) (st : CacheState) :
    Cache.GetAll (k :: rest) st
      = (Cache.Get k st).bind fun m => (Cache.GetAll rest st).map fun ms => m :: ms := rfl

theorem get_isSome_lookup (k : String) (st : CacheState) (m : Message)
    (h : Cache.Get k st = some m) : (lookupEntry k st).isSome := by
  unfold Cache.Get at h
  cases hl : lookupEntry k st with
  | none => rw [hl] at h; cases h
  | some b => simp

theorem getAll_length (keys : List String) (st : CacheState) (msgs : List Message)
    (h : Cache.GetAll keys st = some msgs) : msgs.length = keys.length := by
  induction keys generalizing msgs with
  | nil =>
    have : some [] = some msgs := h
    cases this
    rfl
  | cons k rest ih =>
    rw [getAll_cons] at h
    cases hg : Cache.Get k st with
    | none => rw [hg] at h; cases h
    | some m =>
      rw [hg, Option.some_bind] at h
      cases hga : Cache.GetAll rest st with
      | none => rw [hga] at h; cases h
      | some ms =>
        rw [hga, Option.map_some'] at h
        cases h
        simp [ih ms hga]

theorem getAll_isSome_lookup (keys : List String) (st : CacheState) (msgs : List Message)
    (h : Cache.GetAll keys st = some msgs) :
    ∀ k, k ∈ keys → (lookupEntry k st).isSome := by
  induction keys generalizing msgs with
  | nil => intro k hk; cases hk
  | cons k0 rest ih =>
    intro k hk
    rw [getAll_cons] at h
    cases hg : Cache.Get k0 st with
    | none => rw [hg] at h; cases h
    | some m =>
      rw [hg, Option.some_bind] at h
      cases hga : Cache.GetAll rest st with
      | none => rw [hga] at h; cases h
      | some ms =>
        cases List.mem_cons.mp hk with
        | inl hkk => subst hkk; exact get_isSome_lookup k st m hg
        | inr hkk => exact ih ms hga k hkk

theorem getAll_none_of_lookup_none (keys : List String) (st : CacheState) (k : String)
    (hk : k ∈ keys) (hl : lookupEntry k st = none) : Cache.GetAll keys st = none := by
  induction keys with
  | nil => cases hk
  | cons k0 rest ih =>
    rw [getAll_cons]
    cases List.mem_cons.mp hk with
    | inl hkk =>
      subst hkk
      rw [show Cache.Get k st = (lookupEntry k st).bind decodeFromBytes from rfl, hl]
      rfl
    | inr hkk =>
      cases hg : Cache.Get k0 st with
      | none => rfl
      | some m => rw [Option.some_bind, ih hkk]; rfl

/-! # fetchFromCache / forward inversion lemmas -/

theorem forward_resp (st : ProxyState) (cmds : List String) (mm : List Message)
    (rtf : List Message → List Message) (ck : Option (List (List String)))
    (resp : List Message) (st2 : ProxyState)
    (h : forward st cmds mm rtf ck = some (resp, st2)) :
    resp = rtf mm ∧ processLoop cmds ck (rtf mm) 0 st = some st2 := by
  unfold forward at h
  cases hp : processLoop cmds ck (rtf mm) 0 st with
  | none => rw [hp] at h; cases h
  | some s =>
    rw [hp, Option.map_some'] at h
    injection h with h1
    injection h1 with h2 h3
    exact ⟨h2.symm, by rw [h3]⟩

theorem fetchFromCache_hit_inv (st : CacheState) (cmds : List String) (mm : List Message)
    (ks : List (List String)) (msgs : List Message)
    (h : fetchFromCache st cmds mm = .hit ks msgs) :
    extractKeys cmds mm = some (some ks) ∧ fetchLoop st cmds ks = some (some msgs) := by
  unfold fetchFromCache at h
  cases he : extractKeys cmds mm with
  | none => rw [he] at h; cases h
  | some r =>
    rw [he] at h
    cases r with
    | none => cases h
    | some ks' =>
      have h' : (match fetchLoop st cmds ks' with
          | none => FetchResult.panic
          | some none => FetchResult.miss ks'
          | some (some ms2) => FetchResult.hit ks' ms2) = FetchResult.hit ks msgs := h
      cases hf : fetchLoop st cmds ks' with
      | none => rw [hf] at h'; cases h'
      | some r2 =>
        rw [hf] at h'
        cases r2 with
        | none => cases h'
        | some msgs' =>
          injection h' with h1 h2
          subst h1
          subst h2
          exact ⟨rfl, hf⟩

theorem extractKeys_get (cmds : List String) (mm : List Message) (ks : List (List String))
    (h : extractKeys cmds mm = some (some ks)) :
    ∀ j m, mm.get? j = some m → ks.get? j = some (msgKeys m) := by
  induction mm generalizing cmds ks with
  | nil =>
    intro j m hj
    rw [List.get?_eq_none.mpr (by simp)] at hj
    cases hj
  | cons m0 ms ih =>
    intro j m hj
    match cmds with
    | [] => cases (show (none : Option (Option (List (List String)))) = some (some ks) from h)
    | c :: cs =>
      rw [show extractKeys (c :: cs) (m0 :: ms)
          = (if CacheableCommands c then
              (extractKeys cs ms).map (fun r => r.map fun l => msgKeys m0 :: l)
            else some none) from rfl] at h
      by_cases hc : CacheableCommands c
      · rw [if_pos hc] at h
        cases hrec : extractKeys cs ms with
        | none => rw [hrec] at h; cases h
        | some r =>
          rw [hrec, Option.map_some'] at h
          cases r with
          | none => injection h with h1; cases h1
          | some l =>
            injection h with h1
            injection h1 with h2
            subst h2
            cases j with
            | zero =>
              have : m0 = m := by
                have := hj
                simp only [List.get?_cons_zero] at this
                injection this
              subst this
              rfl
            | succ jj =>
              simp only [List.get?_cons_succ] at hj ⊢
              exact ih cs l hrec jj m hj
      · rw [if_neg hc] at h
        injection h with h1
        cases h1

theorem fetchLoop_getall (st : CacheState) (cmds : List String) (ks : List (List String))
    (msgs : List Message) (h : fetchLoop st cmds ks = some (some msgs)) :
    ∀ j kj, ks.get? j = some kj → ∃ cached, Cache.GetAll kj st = some cached := by
  induction ks generalizing cmds msgs with
  | nil =>
    intro j kj hj
    rw [List.get?_eq_none.mpr (by simp)] at hj
    cases hj
  | cons k0 krest ih =>
    intro j kj hj
    match cmds with
    | [] => cases (show (none : Option (Option (List Message))) = some (some msgs) from h)
    | c :: cs =>
      rw [show fetchLoop st (c :: cs) (k0 :: krest)
          = (match Cache.GetAll k0 st with
             | none => some none
             | some cached =>
                 match (if c = "GET" then cached.head? else some (Message.array cached)) with
                 | none => none
                 | some mi =>
                     (fetchLoop st cs krest).map fun r => r.map fun ms => mi :: ms)
          from rfl] at h
      cases hga : Cache.GetAll k0 st with
      | none =>
        rw [hga] at h
        injection h with h1
        cases h1
      | some cached =>
        rw [hga] at h
        have h' : (match (if c = "GET" then cached.head? else some (Message.array cached)) with
            | none => none
            | some mi =>
                (fetchLoop st cs krest).map fun r => r.map fun ms => mi :: ms)
            = some (some msgs) := h
        cases hmi : (if c = "GET" then cached.head? else some (Message.array cached)) with
        | none => rw [hmi] at h'; cases h'
        | some mi =>
          rw [hmi] at h'
          have h'' : (fetchLoop st cs krest).map (fun r => r.map fun ms => mi :: ms)
              = some (some msgs) := h'
          cases j with
          | zero =>
            have : k0 = kj := by
              have := hj
              simp only [List.get?_cons_zero] at this
              injection this
            subst this
            exact ⟨cached, hga⟩
          | succ jj =>
            simp only [List.get?_cons_succ] at hj
            cases hfl : fetchLoop st cs krest with
            | none => rw [hfl] at h''; cases h''
            | some r =>
              rw [hfl, Option.map_some'] at h''
              cases r with
              | none => injection h'' with h1; cases h1
              | some ms' => exact ih cs ms' hfl jj kj hj

/-! # C2: all-or-nothing cache read -/

/-- Claim C2: `Cache.GetAll` yields a vector only if every key is present
(part 1); one absent key makes the whole read a miss (part 2); and when an
`MGET` in the batch names an absent key, the interceptor forwards the full
original batch upstream and the client's responses are exactly the
upstream's reply (part 3). -/
theorem getAll_all_or_nothing :
    (∀ keys st msgs, Cache.GetAll keys st = some msgs →
      ∀ k, k ∈ keys → (lookupEntry k st).isSome) ∧
    (∀ keys st k, k ∈ keys → lookupEntry k st = none → Cache.GetAll keys st = none) ∧
    (∀ (st : ProxyState) cmds mm (rtf : List Message → List Message) i m k resp st2,
      st.cachePrefixes = true →
      cmds.get? i = some "MGET" → mm.get? i = some m → k ∈ msgKeys m →
      lookupEntry k st.cache = none →
      interceptMessages st cmds mm rtf = some (resp, st2) →
      resp = rtf mm) := by
  refine ⟨fun keys st msgs h => getAll_isSome_lookup keys st msgs h,
    fun keys st k hk hl => getAll_none_of_lookup_none keys st k hk hl,
    ?_⟩
  intro st cmds mm rtf i m k resp st2 hpref hcmd hm hk hl hint
  unfold interceptMessages at hint
  rw [hpref, if_pos rfl] at hint
  cases hfetch : fetchFromCache st.cache cmds mm with
  | panic => rw [hfetch] at hint; cases hint
  | notCacheable =>
    rw [hfetch] at hint
    exact (forward_resp st cmds mm rtf none resp st2 hint).1
  | miss ks =>
    rw [hfetch] at hint
    exact (forward_resp st cmds mm rtf (some ks) resp st2 hint).1
  | hit ks msgs =>
    exfalso
    obtain ⟨he, hf⟩ := fetchFromCache_hit_inv st.cache cmds mm ks msgs hfetch
    have hks := extractKeys_get cmds mm ks he i m hm
    obtain ⟨cached, hga⟩ := fetchLoop_getall st.cache cmds ks msgs hf i (msgKeys m) hks
    have := getAll_isSome_lookup (msgKeys m) st.cache cached hga k hk
    rw [hl] at this
    cases this

theorem getAll_all_or_nothing_witness :
    ((lookupEntry "a" ([("a", ['+', 'O', '\r', '\n'])] : CacheState)).isSome) ∧
    (Cache.GetAll ["a", "b"] [("a", ['+', 'O', '\r', '\n'])] = none) ∧
    (∀ resp st2,
      interceptMessages ⟨[("a", ['+', 'O', '\r', '\n'])], [], [], [], 0, true⟩
          ["MGET"] [.array [.bulk (some "MGET"), .bulk (some "a"), .bulk (some "b")]]
          (fun _ => [.array [.bulk (some "1"), .bulk (some "2")]]) = some (resp, st2) →
      resp = [.array [.bulk (some "1"), .bulk (some "2")]]) := by
  refine ⟨?_, ?_, ?_⟩
  · exact getAll_all_or_nothing.1 ["a"] [("a", ['+', 'O', '\r', '\n'])]
      [.status "O"] rfl "a" (by simp)
  · exact getAll_all_or_nothing.2.1 ["a", "b"] [("a", ['+', 'O', '\r', '\n'])] "b"
      (by simp) rfl
  · intro resp st2 hint
    exact getAll_all_or_nothing.2.2 ⟨[("a", ['+', 'O', '\r', '\n'])], [], [], [], 0, true⟩
      ["MGET"] [.array [.bulk (some "MGET"), .bulk (some "a"), .bulk (some "b")]]
      (fun _ => [.array [.bulk (some "1"), .bulk (some "2")]]) 0
      (.array [.bulk (some "MGET"), .bulk (some "a"), .bulk (some "b")]) "b" resp st2
      rfl rfl rfl (by decide) rfl hint

/-! # C10: a non-cacheable command in the batch means no cache reads and
no cache writes -/

theorem ensure_withCache (s : ProxyState) (c : CacheState) (u : String) :
    ensureListenerForUpstream (withCache s c) u = withCache (ensureListenerForUpstream s u) c := by
  unfold ensureListenerForUpstream withCache
  cases h : lookupAssoc u s.listeners <;> simp [h]

theorem registerAll_withCache (addrs : List String) (s : ProxyState) (c : CacheState) :
    registerAll (withCache s c) addrs = withCache (registerAll s addrs) c := by
  induction addrs generalizing s with
  | nil => rfl
  | cons a as ih =>
    rw [show registerAll (withCache s c) (a :: as)
        = registerAll (ensureListenerForUpstream (withCache s c) a) as from rfl,
      ensure_withCache, ih,
      show registerAll s (a :: as) = registerAll (ensureListenerForUpstream s a) as from rfl]

theorem processNodesLines_withCache (ls : List (List Char)) (s : ProxyState) (c : CacheState) :
    processNodesLines ls (withCache s c) = (processNodesLines ls s).map (withCache · c) := by
  induction ls generalizing s with
  | nil => rfl
  | cons l rest ih =>
    rw [show processNodesLines (l :: rest) (withCache s c)
        = (match lineHostPort l with
           | none => none
           | some none => processNodesLines rest (withCache s c)
           | some (some hp) => processNodesLines rest (ensureListenerForUpstream (withCache s c) hp))
        from rfl,
      show processNodesLines (l :: rest) s
        = (match lineHostPort l with
           | none => none
           | some none => processNodesLines rest s
           | some (some hp) => processNodesLines rest (ensureListenerForUpstream s hp))
        from rfl]
    cases hl : lineHostPort l with
    | none => rfl
    | some r =>
      cases r with
      | none => exact ih s
      | some hp =>
        show processNodesLines rest (ensureListenerForUpstream (withCache s c) hp)
            = (processNodesLines rest (ensureListenerForUpstream s hp)).map (withCache · c)
        rw [ensure_withCache]
        exact ih (ensureListenerForUpstream s hp)

theorem clusterNodesEffect_withCache (m : Message) (s : ProxyState) (c : CacheState) :
    clusterNodesEffect m (withCache s c) = (clusterNodesEffect m s).map (withCache · c) := by
  cases m with
  | bulk v => exact processNodesLines_withCache _ s c
  | status s' => rfl
  | err s' => rfl
  | int n => rfl
  | array ms => rfl
  | invalid => rfl

theorem processLoop_none_step (cmds : List String) (m : Message) (rest : List Message)
    (i : Nat) (s : ProxyState) :
    processLoop cmds none (m :: rest) i s
      = (match cmds.get? i with
         | none => none
         | some cmd =>
           if cmd = "CLUSTER SLOTS" then
             match encodeMsg m with
             | .error _ => some s
             | .ok _ =>
                 match clusterSlotsAddrs m with
                 | none => some s
                 | some addrs => some (registerAll s addrs)
           else
             match (if cmd = "CLUSTER NODES" then clusterNodesEffect m s else some s) with
             | none => none
             | some st2 =>
                 match m with
                 | .err str =>
                     if hasPrefixC str.data "MOVED".data || hasPrefixC str.data "ASK".data then
                       if (splitOnCharC ' ' str.data).length < 3 then some st2
                       else processLoop cmds none rest (i + 1)
                         (ensureListenerForUpstream st2 (String.mk ((splitOnCharC ' ' str.data).getD 2 [])))
                     else processLoop cmds none rest (i + 1) st2
                 | _ => processLoop cmds none rest (i + 1) st2) := rfl

theorem processLoop_none_withCache (ms : List Message) (cmds : List String) (i : Nat)
    (s : ProxyState) (c : CacheState) :
    processLoop cmds none ms i (withCache s c)
      = (processLoop cmds none ms i s).map (withCache · c) := by
  induction ms generalizing i s with
  | nil => rfl
  | cons m rest ih =>
    rw [processLoop_none_step, processLoop_none_step]
    cases hcmd : cmds.get? i with
    | none => rfl
    | some cmd =>
      by_cases hcs : cmd = "CLUSTER SLOTS"
      · show (if cmd = "CLUSTER SLOTS" then
              match encodeMsg m with
              | .error _ => some (withCache s c)
              | .ok _ =>
                  match clusterSlotsAddrs m with
                  | none => some (withCache s c)
                  | some addrs => some (registerAll (withCache s c) addrs)
            else _) = _
        rw [if_pos hcs]
        show _ = (if cmd = "CLUSTER SLOTS" then
              match encodeMsg m with
              | .error _ => some s
              | .ok _ =>
                  match clusterSlotsAddrs m with
                  | none => some s
                  | some addrs => some (registerAll s addrs)
            else _).map (withCache · c)
        rw [if_pos hcs]
        cases encodeMsg m with
        | error e => rfl
        | ok b =>
          cases clusterSlotsAddrs m with
          | none => rfl
          | some addrs =>
            show some (registerAll (withCache s c) addrs)
                = (some (registerAll s addrs)).map (withCache · c)
            rw [registerAll_withCache]
            rfl
      · have hnodes : (if cmd = "CLUSTER NODES" then clusterNodesEffect m (withCache s c)
            else some (withCache s c))
            = (if cmd = "CLUSTER NODES" then clusterNodesEffect m s else some s).map
                (withCache · c) := by
          by_cases hcn : cmd = "CLUSTER NODES"
          · rw [if_pos hcn, if_pos hcn]
            exact clusterNodesEffect_withCache m s c
          · rw [if_neg hcn, if_neg hcn]
            rfl
        show (if cmd = "CLUSTER SLOTS" then _
            else
              match (if cmd = "CLUSTER NODES" then clusterNodesEffect m (withCache s c)
                  else some (withCache s c)) with
              | none => none
              | some st2 =>
                  match m with
                  | .err str =>
                      if hasPrefixC str.data "MOVED".data || hasPrefixC str.data "ASK".data then
                        if (splitOnCharC ' ' str.data).length < 3 then some st2
                        else processLoop cmds none rest (i + 1)
                          (ensureListenerForUpstream st2 (String.mk ((splitOnCharC ' ' str.data).getD 2 [])))
                      else processLoop cmds none rest (i + 1) st2
                  | _ => processLoop cmds none rest (i + 1) st2) = _
        rw [if_neg hcs, hnodes]
        show _ = (if cmd = "CLUSTER SLOTS" then _
            else
              match (if cmd = "CLUSTER NODES" then clusterNodesEffect m s else some s) with
              | none => none
              | some st2 =>
                  match m with
                  | .err str =>
                      if hasPrefixC str.data "MOVED".data || hasPrefixC str.data "ASK".data then
                        if (splitOnCharC ' ' str.data).length < 3 then some st2
                        else processLoop cmds none rest (i + 1)
                          (ensureListenerForUpstream st2 (String.mk ((splitOnCharC ' ' str.data).getD 2 [])))
                      else processLoop cmds none rest (i + 1) st2
                  | _ => processLoop cmds none rest (i + 1) st2).map (withCache · c)
        rw [if_neg hcs]
        cases hce : (if cmd = "CLUSTER NODES" then clusterNodesEffect m s else some s) with
        | none => rfl
        | some st2 =>
          cases m with
          | err str =>
            by_cases hpre : (hasPrefixC str.data "MOVED".data || hasPrefixC str.data "ASK".data) = true
            · by_cases hp3 : (splitOnCharC ' ' str.data).length < 3
              · show (if hasPrefixC str.data "MOVED".data || hasPrefixC str.data "ASK".data then
                      if (splitOnCharC ' ' str.data).length < 3 then some (withCache st2 c)
                      else _
                    else _) = _
                rw [if_pos hpre, if_pos hp3]
                show _ = (if hasPrefixC str.data "MOVED".data || hasPrefixC str.data "ASK".data then
                      if (splitOnCharC ' ' str.data).length < 3 then some st2
                      else _
                    else _).map (withCache · c)
                rw [if_pos hpre, if_pos hp3]
                rfl
              · show (if hasPrefixC str.data "MOVED".data || hasPrefixC str.data "ASK".data then
                      if (splitOnCharC ' ' str.data).length < 3 then _
                      else processLoop cmds none rest (i + 1)
                        (ensureListenerForUpstream (withCache st2 c) (String.mk ((splitOnCharC ' ' str.data).getD 2 [])))
                    else _) = _
                rw [if_pos hpre, if_neg hp3]
                show _ = (if hasPrefixC str.data "MOVED".data || hasPrefixC str.data "ASK".data then
                      if (splitOnCharC ' ' str.data).length < 3 then _
                      else processLoop cmds none rest (i + 1)
                        (ensureListenerForUpstream st2 (String.mk ((splitOnCharC ' ' str.data).getD 2 [])))
                    else _).map (withCache · c)
                rw [if_pos hpre, if_neg hp3, ensure_withCache]
                exact ih (i + 1) _
            · show (if hasPrefixC str.data "MOVED".data || hasPrefixC str.data "ASK".data then _
                    else processLoop cmds none rest (i + 1) (withCache st2 c)) = _
              rw [if_neg hpre]
              show _ = (if hasPrefixC str.data "MOVED".data || hasPrefixC str.data "ASK".data then _
                    else processLoop cmds none rest (i + 1) st2).map (withCache · c)
              rw [if_neg hpre]
              exact ih (i + 1) st2
          | status sx => exact ih (i + 1) st2
          | int n => exact ih (i + 1) st2
          | bulk v => exact ih (i + 1) st2
          | array msx => exact ih (i + 1) st2
          | invalid => exact ih (i + 1) st2

theorem processLoop_none_cache_const (ms : List Message) (cmds : List String) (i : Nat)
    (s st' : ProxyState) (h : processLoop cmds none ms i s = some st') :
    st'.cache = s.cache := by
  have hw := processLoop_none_withCache ms cmds i s s.cache
  rw [show withCache s s.cache = s from rfl, h, Option.map_some'] at hw
  have : st' = withCache st' s.cache := by
    injection hw
  rw [this]
  rfl

theorem extractKeys_not_cacheable (cmds : List String) (mm : List Message)
    (hlen : cmds.length = mm.length) (c : String) (hc : c ∈ cmds)
    (hnc : CacheableCommands c = false) : extractKeys cmds mm = some none := by
  induction cmds generalizing mm with
  | nil => cases hc
  | cons c0 cs ih =>
    match mm with
    | [] => simp at hlen
    | m :: ms =>
      rw [show extractKeys (c0 :: cs) (m :: ms)
          = (if CacheableCommands c0 then
              (extractKeys cs ms).map (fun r => r.map fun l => msgKeys m :: l)
            else some none) from rfl]
      by_cases h0 : CacheableCommands c0
      · rw [if_pos h0]
        have hcc : c ∈ cs := by
          cases List.mem_cons.mp hc with
          | inl he => rw [he] at hnc; rw [hnc] at h0; cases h0
          | inr ht => exact ht
        rw [ih ms (by simpa using hlen) hcc]
        rfl
      · rw [if_neg h0]

theorem fetchFromCache_not_cacheable (st : CacheState) (cmds : List String) (mm : List Message)
    (hlen : cmds.length = mm.length) (c : String) (hc : c ∈ cmds)
    (hnc : CacheableCommands c = false) :
    fetchFromCache st cmds mm = .notCacheable := by
  unfold fetchFromCache
  rw [extractKeys_not_cacheable cmds mm hlen c hc hnc]

/-- Claim C10: if any command of the batch is not `GET`/`MGET`, the
interceptor performs no cache writes (the final cache is the initial one)
and no cache reads (everything except the cache in the result is the same
whatever the cache holds, and each cache passes through unchanged), and
the whole batch is forwarded: the responses are the round-tripper's reply
to the full original batch. -/
theorem intercept_noncacheable_frame (st : ProxyState) (cmds : List String)
    (mm : List Message) (rtf : List Message → List Message) (c : String)
    (hc : c ∈ cmds) (hnc : CacheableCommands c = false)
    (hlen : cmds.length = mm.length) :
    (∀ resp st2, interceptMessages st cmds mm rtf = some (resp, st2) →
        resp = rtf mm ∧ st2.cache = st.cache) ∧
    (∀ c₁ c₂, (interceptMessages (withCache st c₁) cmds mm rtf).map stripCache
        = (interceptMessages (withCache st c₂) cmds mm rtf).map stripCache) := by
  have hforward : ∀ (s : ProxyState), interceptMessages s cmds mm rtf
      = forward s cmds mm rtf none := by
    intro s
    unfold interceptMessages
    cases hpref : s.cachePrefixes with
    | false => simp
    | true =>
      simp only [if_pos rfl]
      rw [fetchFromCache_not_cacheable s.cache cmds mm hlen c hc hnc]
      simp
  constructor
  · intro resp st2 hint
    rw [hforward st] at hint
    obtain ⟨h1, h2⟩ := forward_resp st cmds mm rtf none resp st2 hint
    exact ⟨h1, processLoop_none_cache_const (rtf mm) cmds 0 st st2 h2⟩
  · intro c₁ c₂
    rw [hforward (withCache st c₁), hforward (withCache st c₂)]
    unfold forward
    rw [processLoop_none_withCache (rtf mm) cmds 0 st c₁,
      processLoop_none_withCache (rtf mm) cmds 0 st c₂]
    cases processLoop cmds none (rtf mm) 0 st <;> rfl

theorem intercept_noncacheable_frame_witness :
    ("SET" ∈ ["SET"]) ∧ (CacheableCommands "SET" = false) ∧
    ((["SET"] : List String).length = ([Message.int 0] : List Message).length) ∧
    ((∀ resp st2,
        interceptMessages ⟨[("a", ['+'])], [], [], [], 0, true⟩ ["SET"] [.int 0]
          (fun _ => [.status "OK"]) = some (resp, st2) →
        resp = [.status "OK"] ∧ st2.cache = [("a", ['+'])]) ∧
     (∀ c₁ c₂,
        (interceptMessages (withCache ⟨[("a", ['+'])], [], [], [], 0, true⟩ c₁) ["SET"] [.int 0]
          (fun _ => [.status "OK"])).map stripCache
        = (interceptMessages (withCache ⟨[("a", ['+'])], [], [], [], 0, true⟩ c₂) ["SET"] [.int 0]
          (fun _ => [.status "OK"])).map stripCache)) :=
  ⟨by decide, rfl, rfl,
    intercept_noncacheable_frame ⟨[("a", ['+'])], [], [], [], 0, true⟩ ["SET"] [.int 0]
      (fun _ => [.status "OK"]) "SET" (by decide) rfl rfl⟩

/-! # C1: full cache hit answers locally -/

theorem extractKeys_all_cacheable (cmds : List String) (mm : List Message)
    (hlen : mm.length = cmds.length)
    (hc : ∀ i c, cmds.get? i = some c → CacheableCommands c = true) :
    extractKeys cmds mm = some (some (mm.map msgKeys)) := by
  induction mm generalizing cmds with
  | nil => cases cmds <;> rfl
  | cons m ms ih =>
    match cmds with
    | [] => simp at hlen
    | c :: cs =>
      have hc0 : CacheableCommands c = true := hc 0 c rfl
      rw [show extractKeys (c :: cs) (m :: ms)
          = (if CacheableCommands c then
              (extractKeys cs ms).map (fun r => r.map fun l => msgKeys m :: l)
            else some none) from rfl,
        if_pos hc0,
        ih cs (by simpa using hlen) (fun i cc hcc => hc (i + 1) cc (by simpa using hcc))]
      rfl

theorem fetchLoop_all_hit (cmds : List String) (mm : List Message)
    (cached : List (List Message)) (st : CacheState)
    (hlen : mm.length = cmds.length) (hlen2 : cached.length = mm.length)
    (hhit : ∀ i m cv, mm.get? i = some m → cached.get? i = some cv →
        Cache.GetAll (msgKeys m) st = some cv)
    (hget : ∀ i m, cmds.get? i = some "GET" → mm.get? i = some m → msgKeys m ≠ []) :
    fetchLoop st cmds (mm.map msgKeys) = some (some (assembleResp cmds cached)) := by
  induction mm generalizing cmds cached with
  | nil =>
    match cached with
    | [] =>
      show fetchLoop st cmds [] = some (some (assembleResp cmds []))
      cases cmds with
      | nil => rfl
      | cons c cs => rfl
    | cv :: _ => simp at hlen2
  | cons m ms ih =>
    match cmds, cached with
    | [], _ => simp at hlen
    | c :: cs, [] => simp at hlen2
    | c :: cs, cv :: cvs =>
      have hga : Cache.GetAll (msgKeys m) st = some cv := hhit 0 m cv rfl rfl
      have hrec := ih cs cvs (by simpa using hlen) (by simpa using hlen2)
        (fun i mi cvi h1 h2 => hhit (i + 1) mi cvi (by simpa using h1) (by simpa using h2))
        (fun i mi h1 h2 => hget (i + 1) mi (by simpa using h1) (by simpa using h2))
      rw [show fetchLoop st (c :: cs) ((m :: ms).map msgKeys)
          = (match Cache.GetAll (msgKeys m) st with
             | none => some none
             | some cached2 =>
                 match (if c = "GET" then cached2.head? else some (Message.array cached2)) with
                 | none => none
                 | some mi =>
                     (fetchLoop st cs (ms.map msgKeys)).map fun r => r.map fun ms2 => mi :: ms2)
          from rfl, hga]
      by_cases hc : c = "GET"
      · have hne : msgKeys m ≠ [] := hget 0 m (by rw [hc]; exact rfl) rfl
        have hcv : cv ≠ [] := by
          intro hnil
          have hl := getAll_length (msgKeys m) st cv hga
          rw [hnil] at hl
          exact hne (List.length_eq_zero.mp hl.symm)
        match cv, hcv with
        | h0 :: t, _ =>
          show (match (if c = "GET" then (h0 :: t).head? else some (Message.array (h0 :: t))) with
              | none => none
              | some mi =>
                  (fetchLoop st cs (ms.map msgKeys)).map fun r => r.map fun ms2 => mi :: ms2)
              = some (some (assembleResp (c :: cs) ((h0 :: t) :: cvs)))
          rw [if_pos hc]
          show (fetchLoop st cs (ms.map msgKeys)).map (fun r => r.map fun ms2 => h0 :: ms2)
              = some (some (assembleResp (c :: cs) ((h0 :: t) :: cvs)))
          rw [hrec, Option.map_some',
            show assembleResp (c :: cs) ((h0 :: t) :: cvs)
              = (if c = "GET" then (h0 :: t).headD (Message.bulk none)
                 else Message.array (h0 :: t)) :: assembleResp cs cvs from rfl,
            if_pos hc]
          rfl
      · show (match (if c = "GET" then cv.head? else some (Message.array cv)) with
            | none => none
            | some mi =>
                (fetchLoop st cs (ms.map msgKeys)).map fun r => r.map fun ms2 => mi :: ms2)
            = some (some (assembleResp (c :: cs) (cv :: cvs)))
        rw [if_neg hc]
        show (fetchLoop st cs (ms.map msgKeys)).map
            (fun r => r.map fun ms2 => Message.array cv :: ms2)
            = some (some (assembleResp (c :: cs) (cv :: cvs)))
        rw [hrec, Option.map_some',
          show assembleResp (c :: cs) (cv :: cvs)
            = (if c = "GET" then cv.headD (Message.bulk none)
               else Message.array cv) :: assembleResp cs cvs from rfl,
          if_neg hc]
        rfl

/-- Claim C1: with cache prefixes configured, a batch of only `GET`/`MGET`
commands whose every requested key the cache serves (each `GetAll`
succeeds) is answered without any upstream round-trip — the round-tripper
is arbitrary and unused, the proxy state is returned unchanged — and the
responses are assembled from the cached per-key values: a `GET` gets the
single cached element, an `MGET` the array of cached elements in key
order. -/
theorem intercept_full_cache_hit (st : ProxyState) (cmds : List String)
    (mm : List Message) (rtf : List Message → List Message) (cached : List (List Message))
    (hpref : st.cachePrefixes = true)
    (hlen : mm.length = cmds.length) (hlen2 : cached.length = mm.length)
    (hcacheable : ∀ i c, cmds.get? i = some c → CacheableCommands c = true)
    (hhit : ∀ i m cv, mm.get? i = some m → cached.get? i = some cv →
        Cache.GetAll (msgKeys m) st.cache = some cv)
    (hget : ∀ i m, cmds.get? i = some "GET" → mm.get? i = some m → msgKeys m ≠ []) :
    interceptMessages st cmds mm rtf = some (assembleResp cmds cached, st) := by
  have hfetch : fetchFromCache st.cache cmds mm
      = .hit (mm.map msgKeys) (assembleResp cmds cached) := by
    unfold fetchFromCache
    rw [extractKeys_all_cacheable cmds mm hlen hcacheable]
    show (match fetchLoop st.cache cmds (mm.map msgKeys) with
        | none => FetchResult.panic
        | some none => FetchResult.miss (mm.map msgKeys)
        | some (some msgs) => FetchResult.hit (mm.map msgKeys) msgs)
        = FetchResult.hit (mm.map msgKeys) (assembleResp cmds cached)
    rw [fetchLoop_all_hit cmds mm cached st.cache hlen hlen2 hhit hget]
  unfold interceptMessages
  rw [hpref, if_pos rfl, hfetch]

theorem intercept_full_cache_hit_witness :
    interceptMessages
        ⟨[("k", ['$', '1', '\r', '\n', 'v', '\r', '\n'])], [], [], [], 0, true⟩
        ["GET", "MGET"]
        [.array [.bulk (some "GET"), .bulk (some "k")],
         .array [.bulk (some "MGET"), .bulk (some "k")]]
        (fun _ => [.err "UPSTREAM"])
      = some (assembleResp ["GET", "MGET"] [[.bulk (some "v")], [.bulk (some "v")]],
          ⟨[("k", ['$', '1', '\r', '\n', 'v', '\r', '\n'])], [], [], [], 0, true⟩) := by
  exact intercept_full_cache_hit
    ⟨[("k", ['$', '1', '\r', '\n', 'v', '\r', '\n'])], [], [], [], 0, true⟩
    ["GET", "MGET"]
    [.array [.bulk (some "GET"), .bulk (some "k")],
     .array [.bulk (some "MGET"), .bulk (some "k")]]
    (fun _ => [.err "UPSTREAM"])
    [[.bulk (some "v")], [.bulk (some "v")]]
    rfl rfl rfl
    (by
      intro i c h
      match i with
      | 0 => cases h; rfl
      | 1 => cases h; rfl
      | n + 2 => cases h)
    (by
      intro i m cv h1 h2
      match i with
      | 0 => cases h1; cases h2; rfl
      | 1 => cases h1; cases h2; rfl
      | n + 2 => cases h1)
    (by
      intro i m h1 h2
      match i with
      | 0 => cases h2; simp [msgKeys]
      | 1 =>
        injection h1 with h'
        exact absurd h' (by decide)
      | n + 2 => cases h1)

/-! # C5: MOVED/ASK redirection registration (corrected) -/

theorem processLoop_step (cmds : List String) (ck : Option (List (List String)))
    (m : Message) (rest : List Message) (i : Nat) (s : ProxyState) :
    processLoop cmds ck (m :: rest) i s
      = (match (match ck with
           | none => some s
           | some ks =>
               match ks.get? i with
               | none => none
               | some k => (Cache.Set k m s.cache).map fun c2 => { s with cache := c2 }) with
         | none => none
         | some st1 =>
             match cmds.get? i with
             | none => none
             | some cmd =>
                 if cmd = "CLUSTER SLOTS" then
                   match encodeMsg m with
                   | .error _ => some st1
                   | .ok _ =>
                       match clusterSlotsAddrs m with
                       | none => some st1
                       | some addrs => some (registerAll st1 addrs)
                 else
                   match (if cmd = "CLUSTER NODES" then clusterNodesEffect m st1 else some st1) with
                   | none => none
                   | some st2 =>
                       match m with
                       | .err str =>
                           if hasPrefixC str.data "MOVED".data || hasPrefixC str.data "ASK".data then
                             if (splitOnCharC ' ' str.data).length < 3 then some st2
                             else processLoop cmds ck rest (i + 1)
                               (ensureListenerForUpstream st2 (String.mk ((splitOnCharC ' ' str.data).getD 2 [])))
                           else processLoop cmds ck rest (i + 1) st2
                       | _ => processLoop cmds ck rest (i + 1) st2) := rfl

theorem cacheStep_listeners (ck : Option (List (List String))) (m : Message) (i : Nat)
    (s st1 : ProxyState)
    (h : (match ck with
        | none => some s
        | some ks =>
            match ks.get? i with
            | none => none
            | some k => (Cache.Set k m s.cache).map fun c2 => { s with cache := c2 })
      = some st1) :
    st1.listeners = s.listeners := by
  cases ck with
  | none =>
    injection h with h1
    rw [← h1]
  | some ks =>
    have h2 : (match ks.get? i with
        | none => none
        | some k => (Cache.Set k m s.cache).map fun c2 => { s with cache := c2 })
      = some st1 := h
    cases hk : ks.get? i with
    | none => rw [hk] at h2; cases h2
    | some k =>
      rw [hk] at h2
      have h3 : (Cache.Set k m s.cache).map (fun c2 => { s with cache := c2 }) = some st1 := h2
      cases hset : Cache.Set k m s.cache with
      | none => rw [hset] at h3; cases h3
      | some c2 =>
        rw [hset, Option.map_some'] at h3
        injection h3 with h1
        rw [← h1]

theorem lookup_ensure_mono (s : ProxyState) (u a : String)
    (h : (lookupAssoc a s.listeners).isSome) :
    (lookupAssoc a (ensureListenerForUpstream s u).listeners).isSome := by
  unfold ensureListenerForUpstream
  cases hl : lookupAssoc u s.listeners with
  | some v => exact h
  | none =>
    show (lookupAssoc a (insertAssoc u s.nextId s.listeners)).isSome
    rw [lookupAssoc_insert]
    by_cases hu : u = a
    · rw [if_pos hu]; rfl
    · rw [if_neg hu]; exact h

theorem registerAll_mono (addrs : List String) (s : ProxyState) (a : String)
    (h : (lookupAssoc a s.listeners).isSome) :
    (lookupAssoc a (registerAll s addrs).listeners).isSome := by
  induction addrs generalizing s with
  | nil => exact h
  | cons x xs ih =>
    show (lookupAssoc a (registerAll (ensureListenerForUpstream s x) xs).listeners).isSome
    exact ih _ (lookup_ensure_mono s x a h)

theorem processNodesLines_mono (a : String) :
    ∀ (ls : List (List Char)) (s s' : ProxyState),
      processNodesLines ls s = some s' →
      (lookupAssoc a s.listeners).isSome → (lookupAssoc a s'.listeners).isSome := by
  intro ls
  induction ls with
  | nil =>
    intro s s' h ha
    have hss : s = s' := by injection h
    rw [← hss]
    exact ha
  | cons l rest ih =>
    intro s s' h ha
    rw [show processNodesLines (l :: rest) s
        = (match lineHostPort l with
           | none => none
           | some none => processNodesLines rest s
           | some (some hp) => processNodesLines rest (ensureListenerForUpstream s hp))
        from rfl] at h
    split at h
    · cases h
    · exact ih s s' h ha
    · rename_i hp hl
      exact ih _ s' h (lookup_ensure_mono s hp a ha)

theorem clusterNodesEffect_mono (m : Message) (s s' : ProxyState) (a : String)
    (h : clusterNodesEffect m s = some s')
    (ha : (lookupAssoc a s.listeners).isSome) :
    (lookupAssoc a s'.listeners).isSome := by
  cases m with
  | bulk v => exact processNodesLines_mono a _ s s' h ha
  | status x =>
    have hss : s = s' := by injection h
    rw [← hss]; exact ha
  | err x =>
    have hss : s = s' := by injection h
    rw [← hss]; exact ha
  | int x =>
    have hss : s = s' := by injection h
    rw [← hss]; exact ha
  | array x =>
    have hss : s = s' := by injection h
    rw [← hss]; exact ha
  | invalid =>
    have hss : s = s' := by injection h
    rw [← hss]; exact ha

theorem processLoop_mono (cmds : List String) (ck : Option (List (List String))) (a : String) :
    ∀ (ms : List Message) (i : Nat) (s s' : ProxyState),
      processLoop cmds ck ms i s = some s' →
      (lookupAssoc a s.listeners).isSome → (lookupAssoc a s'.listeners).isSome := by
  intro ms
  induction ms with
  | nil =>
    intro i s s' h ha
    have hss : s = s' := by injection h
    rw [← hss]
    exact ha
  | cons m rest ih =>
    intro i s s' h ha
    rw [processLoop_step] at h
    split at h
    · cases h
    · rename_i st1 hst1
      have ha1 : (lookupAssoc a st1.listeners).isSome := by
        rw [cacheStep_listeners ck m i s st1 hst1]
        exact ha
      split at h
      · cases h
      · rename_i cmd hcmd
        split at h
        · split at h
          · injection h with h1
            rw [← h1]; exact ha1
          · split at h
            · injection h with h1
              rw [← h1]; exact ha1
            · rename_i addrs haddrs
              injection h with h1
              rw [← h1]
              exact registerAll_mono addrs st1 a ha1
        · split at h
          · cases h
          · rename_i st2 hst2
            have ha2 : (lookupAssoc a st2.listeners).isSome := by
              by_cases hcn : cmd = "CLUSTER NODES"
              · rw [if_pos hcn] at hst2
                exact clusterNodesEffect_mono m st1 st2 a hst2 ha1
              · rw [if_neg hcn] at hst2
                injection hst2 with h1
                rw [← h1]; exact ha1
            split at h
            · split at h
              · split at h
                · injection h with h1
                  rw [← h1]; exact ha2
                · exact ih (i + 1) _ s' h (lookup_ensure_mono st2 _ a ha2)
              · exact ih (i + 1) st2 s' h ha2
            · exact ih (i + 1) st2 s' h ha2

theorem processLoop_moved_registers (cmds : List String) (ck : Option (List (List String))) :
    ∀ (ms : List Message) (p i : Nat) (st st' : ProxyState) (s : String),
      processLoop cmds ck ms i st = some st' →
      ms.get? p = some (.err s) →
      (hasPrefixC s.data "MOVED".data || hasPrefixC s.data "ASK".data) = true →
      3 ≤ (splitOnCharC ' ' s.data).length →
      (∀ q, q ≤ p → cmds.get? (i + q) ≠ some "CLUSTER SLOTS") →
      (∀ q s2, q < p → ms.get? q = some (.err s2) →
          (hasPrefixC s2.data "MOVED".data || hasPrefixC s2.data "ASK".data) = true →
          3 ≤ (splitOnCharC ' ' s2.data).length) →
      (lookupAssoc (String.mk ((splitOnCharC ' ' s.data).getD 2 [])) st'.listeners).isSome := by
  intro ms
  induction ms with
  | nil =>
    intro p i st st' s h hp hpre h3 hnoslots hnomal
    rw [List.get?_nil] at hp
    cases hp
  | cons m rest ih =>
    intro p i st st' s h hp hpre h3 hnoslots hnomal
    rw [processLoop_step] at h
    split at h
    · cases h
    · rename_i st1 hst1
      split at h
      · cases h
      · rename_i cmd hcmd
        have hcs : ¬ cmd = "CLUSTER SLOTS" := by
          intro he
          apply hnoslots 0 (Nat.zero_le p)
          rw [Nat.add_zero, hcmd, he]
        split at h
        · rename_i hcs2
          exact absurd hcs2 hcs
        · split at h
          · cases h
          · rename_i st2 hst2
            cases p with
            | zero =>
              have hm : m = .err s := by
                have h0 := hp
                simp only [List.get?_cons_zero] at h0
                injection h0
              subst hm
              have h2 : (if hasPrefixC s.data "MOVED".data || hasPrefixC s.data "ASK".data then
                    if (splitOnCharC ' ' s.data).length < 3 then some st2
                    else processLoop cmds ck rest (i + 1)
                      (ensureListenerForUpstream st2 (String.mk ((splitOnCharC ' ' s.data).getD 2 [])))
                  else processLoop cmds ck rest (i + 1) st2) = some st' := h
              rw [if_pos hpre, if_neg (by omega : ¬ (splitOnCharC ' ' s.data).length < 3)] at h2
              exact processLoop_mono cmds ck (String.mk ((splitOnCharC ' ' s.data).getD 2 [])) rest (i + 1) _ st' h2
                (ensureListener_lookup_isSome st2 (String.mk ((splitOnCharC ' ' s.data).getD 2 [])))
            | succ pp =>
              have hp' : rest.get? pp = some (.err s) := by
                simpa using hp
              have hnoslots' : ∀ q, q ≤ pp → cmds.get? (i + 1 + q) ≠ some "CLUSTER SLOTS" := by
                intro q hq
                have := hnoslots (q + 1) (Nat.succ_le_succ hq)
                rwa [show i + (q + 1) = i + 1 + q from by omega] at this
              have hnomal' : ∀ q s2, q < pp → rest.get? q = some (.err s2) →
                  (hasPrefixC s2.data "MOVED".data || hasPrefixC s2.data "ASK".data) = true →
                  3 ≤ (splitOnCharC ' ' s2.data).length := by
                intro q s2 hq hget hpre2
                exact hnomal (q + 1) s2 (Nat.succ_lt_succ hq) (by simpa using hget) hpre2
              split at h
              · rename_i str
                split at h
                · rename_i hpre2
                  have h3' : 3 ≤ (splitOnCharC ' ' str.data).length :=
                    hnomal 0 str (Nat.succ_pos pp) rfl hpre2
                  split at h
                  · rename_i hlt
                    omega
                  · exact ih pp (i + 1) _ st' s h hp' hpre h3 hnoslots' hnomal'
                · exact ih pp (i + 1) st2 st' s h hp' hpre h3 hnoslots' hnomal'
              · exact ih pp (i + 1) st2 st' s h hp' hpre h3 hnoslots' hnomal'

/-- Claim C5 counterexample: a `CLUSTER SLOTS` command earlier in the
batch makes the response loop return before later messages are examined,
so a well-formed `MOVED` error in a later position is relayed without its
address ever being registered. -/
theorem intercept_moved_skipped_cex :
    hasPrefixC "MOVED 1 h:1".data "MOVED".data = true ∧
    String.mk ((splitOnCharC ' ' "MOVED 1 h:1".data).getD 2 []) = "h:1" ∧
    interceptMessages ⟨[], [], [], [], 0, false⟩ ["CLUSTER SLOTS", "GET"]
        [Message.int 0, Message.int 1]
        (fun _ => [Message.array [], Message.err "MOVED 1 h:1"])
      = some ([Message.array [], Message.err "MOVED 1 h:1"],
          ⟨[], [], [], [], 0, false⟩) ∧
    lookupAssoc "h:1" (([] : List (String × Nat))) = none :=
  ⟨rfl, rfl, rfl, rfl⟩

/-- Claim C5 amended: for a batch that is actually forwarded upstream (not
answered whole from the cache), every response whose payload begins with
`MOVED` or `ASK` and splits into at least three space-separated tokens
has its third token registered in the pool registry, and the responses
the client gets are exactly the upstream's — provided no command at or
before that position is `CLUSTER SLOTS` and no earlier response is a
`MOVED`/`ASK` error with fewer than three tokens (either of those makes
the loop return early, skipping the rest of the batch). -/
theorem intercept_moved_registers (st : ProxyState) (cmds : List String)
    (mm : List Message) (rtf : List Message → List Message)
    (i : Nat) (s : String) (resp : List Message) (st2 : ProxyState)
    (hnohit : ∀ ks msgs, fetchFromCache st.cache cmds mm ≠ .hit ks msgs)
    (hint : interceptMessages st cmds mm rtf = some (resp, st2))
    (hresp : (rtf mm).get? i = some (.err s))
    (hpre : (hasPrefixC s.data "MOVED".data || hasPrefixC s.data "ASK".data) = true)
    (h3 : 3 ≤ (splitOnCharC ' ' s.data).length)
    (hnoslots : ∀ j, j ≤ i → cmds.get? j ≠ some "CLUSTER SLOTS")
    (hnomal : ∀ j s2, j < i → (rtf mm).get? j = some (.err s2) →
        (hasPrefixC s2.data "MOVED".data || hasPrefixC s2.data "ASK".data) = true →
        3 ≤ (splitOnCharC ' ' s2.data).length) :
    resp = rtf mm ∧ (lookupAssoc (String.mk ((splitOnCharC ' ' s.data).getD 2 [])) st2.listeners).isSome := by
  have hnoslots0 : ∀ q, q ≤ i → cmds.get? (0 + q) ≠ some "CLUSTER SLOTS" := by
    intro q hq
    rw [Nat.zero_add]
    exact hnoslots q hq
  have hfwd : ∃ ck, forward st cmds mm rtf ck = some (resp, st2) := by
    unfold interceptMessages at hint
    cases hpref : st.cachePrefixes with
    | false => rw [hpref] at hint; exact ⟨none, by simpa using hint⟩
    | true =>
      rw [hpref, if_pos rfl] at hint
      cases hfetch : fetchFromCache st.cache cmds mm with
      | panic => rw [hfetch] at hint; cases hint
      | notCacheable => rw [hfetch] at hint; exact ⟨none, hint⟩
      | miss ks => rw [hfetch] at hint; exact ⟨some ks, hint⟩
      | hit ks msgs => exact absurd hfetch (hnohit ks msgs)
  obtain ⟨ck, hf⟩ := hfwd
  obtain ⟨hr, hloop⟩ := forward_resp st cmds mm rtf ck resp st2 hf
  exact ⟨hr, processLoop_moved_registers cmds ck (rtf mm) i 0 st st2 s hloop hresp hpre h3
    hnoslots0 hnomal⟩

theorem intercept_moved_registers_witness :
    (∀ ks msgs, fetchFromCache ([] : CacheState) ["GET"] [Message.int 0]
        ≠ FetchResult.hit ks msgs) ∧
    (interceptMessages ⟨[], [], [], [], 0, false⟩ ["GET"] [Message.int 0]
        (fun _ => [Message.err "MOVED 1 h:1"])
      = some ([Message.err "MOVED 1 h:1"],
          ⟨[], [("h:1", 0)], [], [("h:1", 0)], 1, false⟩)) ∧
    ([Message.err "MOVED 1 h:1"], (⟨[], [("h:1", 0)], [], [("h:1", 0)], 1, false⟩ : ProxyState)).1
        = (fun (_ : List Message) => [Message.err "MOVED 1 h:1"]) [Message.int 0] ∧
    (lookupAssoc (String.mk ((splitOnCharC ' ' "MOVED 1 h:1".data).getD 2 []))
        (⟨[], [("h:1", 0)], [], [("h:1", 0)], 1, false⟩ : ProxyState).listeners).isSome := by
  have hnohit : ∀ ks msgs, fetchFromCache ([] : CacheState) ["GET"] [Message.int 0]
      ≠ FetchResult.hit ks msgs := by
    intro ks msgs hc
    rw [show fetchFromCache ([] : CacheState) ["GET"] [Message.int 0]
        = FetchResult.panic from rfl] at hc
    cases hc
  have h := intercept_moved_registers ⟨[], [], [], [], 0, false⟩ ["GET"] [Message.int 0]
    (fun _ => [Message.err "MOVED 1 h:1"]) 0 "MOVED 1 h:1"
    [Message.err "MOVED 1 h:1"] ⟨[], [("h:1", 0)], [], [("h:1", 0)], 1, false⟩
    hnohit rfl rfl rfl (by decide)
    (by
      intro j hj
      rw [Nat.le_zero.mp hj]
      decide)
    (fun j s2 hj _ _ => absurd hj (Nat.not_lt_zero j))
  exact ⟨hnohit, rfl, h.1, h.2⟩

end Redisbetween
